import Mathlib

/-!
# Verification of the Plan13 satellite-tracking library

A shallow embedding, in Lean 4, of the numerically relevant parts of
`SatelliteTracking/lib/Plan13/src/Plan13.cpp` (the Plan13 orbit-prediction
algorithm as ported by Mark VandeWettering and adapted by ImJaviPerez),
together with proofs and refutations of the specified properties.

Modelling conventions:
* C `double`/`float` arithmetic on calendar quantities is embedded as exact
  rational arithmetic (`ℚ`), keeping the code's explicit casts:
  a C cast `(long)x` / `(int)x` is truncation toward zero, `ctrunc` below.
* C `double` arithmetic involving transcendental functions (`sin`, `cos`,
  `sqrt`, `atan2`) is embedded as real arithmetic (`ℝ`), with truncation
  toward zero modelled by `ctruncR`.
* Fixed physical constants that live in the missing header `Plan13.h` are
  reproduced from the values documented in the source file's comments and
  from the spec's description of the constant table.
-/

namespace Plan13

/-- Truncation toward zero of a rational number, the meaning of a C cast
`(long)x` or `(int)x` applied to a floating value `x`. -/
def ctrunc (q : ℚ) : ℤ :=
  if 0 ≤ q then ⌊q⌋ else -⌊-q⌋

/-- Truncation toward zero of a real number, the meaning of a C cast
`(long)x` or `(int)x` applied to a floating value `x`. -/
noncomputable def ctruncR (x : ℝ) : ℤ :=
  if 0 ≤ x then ⌊x⌋ else -⌊-x⌋

/-- Degrees to radians conversion (`RADIANS` in `Plan13.cpp`). -/
noncomputable def RADIANS (deg : ℝ) : ℝ := deg * Real.pi / 180

/-- Radians to degrees conversion (`DEGREES` in `Plan13.cpp`). -/
noncomputable def DEGREES (rad : ℝ) : ℝ := rad * 180 / Real.pi

/-- Modelled from the spec: the constant `YM` (days per year of the
day-number formula) from the missing header `Plan13.h`; the spec's
calendar formula (civil calendar with Julian-style month trick, valid
1900--2100) fixes it to `365.25`. -/
def YM : ℚ := 365.25

/-- `fnday` of `Plan13.cpp`: convert a calendar date to a day number
(`(long)(y * YM) + (long)((m+1)*30.6f) + (long)d - 428L`, after treating
January and February as months 13 and 14 of the previous year). -/
def fnday (y m d : ℤ) : ℤ :=
  let y1 := if m < 3 then y - 1 else y
  let m1 := if m < 3 then m + 12 else m
  ctrunc ((y1 : ℚ) * YM) + ctrunc (((m1 : ℚ) + 1) * (30.6 : ℚ)) + d - 428

/-- `fndate` of `Plan13.cpp`: convert a day number back to a calendar date
`(y, m, d)`. -/
def fndate (dt : ℤ) : ℤ × ℤ × ℤ :=
  let dt1 := dt + 428
  let y1 := ctrunc (((dt1 : ℚ) - 122.1) / 365.25)
  let dt2 := dt1 - ctrunc ((y1 : ℚ) * 365.25)
  let m1 := ctrunc ((dt2 : ℚ) / 30.61)
  let dt3 := dt2 - ctrunc ((m1 : ℚ) * 30.6)
  let m2 := m1 - 1
  if m2 > 12 then (y1 + 1, m2 - 12, dt3) else (y1, m2, dt3)

/-- The `DateTime` state of `Plan13.cpp`: an integer day number `DN` and a
fraction of a day `TN`. -/
structure DateTime where
  DN : ℤ
  TN : ℚ
deriving DecidableEq, Repr

/-- `DateTime::settime`: `DN = fnday(year, month, day)` and
`TN = (h + m/60 + s/3600)/24`. -/
def DateTime.settime (year month day h m s : ℤ) : DateTime :=
  ⟨fnday year month day, (((h : ℚ) + (m : ℚ) / 60 + (s : ℚ) / 3600) / 24)⟩

/-- `DateTime::gettime`: recover `(year, month, day, h, m, s)` from the
`DN`/`TN` representation, truncating at each stage exactly as the code
does. -/
def DateTime.gettime (dt : DateTime) : ℤ × ℤ × ℤ × ℤ × ℤ × ℤ :=
  let ymd := fndate dt.DN
  let t0 := dt.TN * 24
  let h := ctrunc t0
  let t1 := (t0 - (h : ℚ)) * 60
  let m := ctrunc t1
  let t2 := (t1 - (m : ℚ)) * 60
  let s := ctrunc t2
  (ymd.1, ymd.2.1, ymd.2.2, h, m, s)

/-- `DateTime::add`: `TN += days; DN += (long)TN; TN -= (long)TN;`. -/
def DateTime.add (dt : DateTime) (days : ℚ) : DateTime :=
  let t := dt.TN + days
  ⟨dt.DN + ctrunc t, t - (ctrunc t : ℚ)⟩

/-- Gregorian leap-year predicate (used only to state which inputs are
valid calendar dates; the supported range of the code is 1900--2100). -/
def isLeap (y : ℤ) : Bool :=
  y % 4 == 0 && (y % 100 != 0 || y % 400 == 0)

/-- Number of days of month `m` of year `y` in the civil calendar. -/
def monthLength (y m : ℤ) : ℤ :=
  if m = 2 then (if isLeap y then 29 else 28)
  else if m = 4 ∨ m = 6 ∨ m = 9 ∨ m = 11 then 30
  else 31

/-- A valid civil calendar date. -/
def ValidDate (y m d : ℤ) : Prop :=
  1 ≤ m ∧ m ≤ 12 ∧ 1 ≤ d ∧ d ≤ monthLength y m

instance (y m d : ℤ) : Decidable (ValidDate y m d) := by
  unfold ValidDate; infer_instance

/-- A 3-vector of reals (`Vec3` of `Plan13.h`). -/
structure Vec3 where
  x : ℝ
  y : ℝ
  z : ℝ

/-- Dot product of two 3-vectors. -/
noncomputable def Vec3.dot (a b : Vec3) : ℝ := a.x * b.x + a.y * b.y + a.z * b.z

/-- Componentwise difference of two 3-vectors. -/
noncomputable def Vec3.sub (a b : Vec3) : Vec3 := ⟨a.x - b.x, a.y - b.y, a.z - b.z⟩

/-- Modelled from the spec: Earth equatorial radius in km (`RE` of the
missing header `Plan13.h`, one of the fixed Earth-shape constants). -/
noncomputable def RE : ℝ := 6378.137

/-- Modelled from the spec: Earth flattening factor (`FL` of the missing
header `Plan13.h`). -/
noncomputable def FL : ℝ := 1 / 298.257224

/-- Modelled from the spec: tropical year length in days (`YT` of the
missing header `Plan13.h`). -/
noncomputable def YT : ℝ := 365.2421874

/-- Modelled from the spec: Earth's orbital angular rate about the Sun in
radians per day (`WW` of the missing header `Plan13.h`). -/
noncomputable def WW : ℝ := 2 * Real.pi / YT

/-- Modelled from the spec: Earth's sidereal rotation rate in radians per
day (`WE` of the missing header `Plan13.h`). -/
noncomputable def WE : ℝ := 2 * Real.pi + WW

/-- Modelled from the spec: Earth's rotation rate in radians per second
(`W0` of the missing header `Plan13.h`). -/
noncomputable def W0 : ℝ := WE / 86400

/-- Astronomical reference year (`YG` of `Plan13.h`; value documented in
the source file's header comment). -/
def YG : ℤ := 2014

/-- Greenwich sidereal angle constant in degrees at the reference epoch
(`G0` of `Plan13.h`; value documented in the source file's header
comment). -/
noncomputable def G0 : ℝ := 99.5828

/-- Mean anomaly of the Sun at the reference epoch, degrees (`MAS0` of
`Plan13.h`; value documented in the source file's header comment). -/
noncomputable def MAS0 : ℝ := 356.4105

/-- Daily rate of the Sun's mean anomaly, degrees/day (`MASD` of
`Plan13.h`; value documented in the source file's header comment). -/
noncomputable def MASD : ℝ := 0.98560028

/-- First equation-of-center coefficient (`EQC1` of `Plan13.h`; value
documented in the source file's header comment). -/
noncomputable def EQC1 : ℝ := 0.03340

/-- Second equation-of-center coefficient (`EQC2` of `Plan13.h`; value
documented in the source file's header comment). -/
noncomputable def EQC2 : ℝ := 0.00035

/-- Obliquity of the ecliptic in radians (`INS` of `Plan13.h`; value
documented in the source file's header comment). -/
noncomputable def INS : ℝ := RADIANS 23.4375

/-- Modelled from the spec: cosine of the obliquity (`CNS` of the missing
header `Plan13.h`). -/
noncomputable def CNS : ℝ := Real.cos INS

/-- Modelled from the spec: sine of the obliquity (`SNS` of the missing
header `Plan13.h`). -/
noncomputable def SNS : ℝ := Real.sin INS

/-- The observer state computed once by the `Observer` constructor:
the local unit triad `U` (up), `E` (east), `N` (north), the Earth-fixed
position `O` and velocity `V`. -/
structure Observer where
  U : Vec3
  E : Vec3
  N : Vec3
  O : Vec3
  V : Vec3

/-- The body of `Observer::Observer(nm, lat, lng, hgt)` of `Plan13.cpp`:
radians conversion, height to km, the `U`/`E`/`N` triad, the
oblateness-corrected site position `O` and its rotational velocity `V`. -/
noncomputable def mkObserver (lat lng hgt : ℝ) : Observer :=
  let LA := RADIANS lat
  let LO := RADIANS lng
  let HT := hgt / 1000
  let U : Vec3 := ⟨Real.cos LA * Real.cos LO, Real.cos LA * Real.sin LO, Real.sin LA⟩
  let E : Vec3 := ⟨-Real.sin LO, Real.cos LO, 0⟩
  let N : Vec3 := ⟨-Real.sin LA * Real.cos LO, -Real.sin LA * Real.sin LO, Real.cos LA⟩
  let RP := RE * (1 - FL)
  let XX := RE * RE
  let ZZ := RP * RP
  let D := Real.sqrt (XX * Real.cos LA * Real.cos LA + ZZ * Real.sin LA * Real.sin LA)
  let Rx := XX / D + HT
  let Rz := ZZ / D + HT
  let O : Vec3 := ⟨Rx * U.x, Rx * U.y, Rz * U.z⟩
  let V : Vec3 := ⟨-O.y * W0, O.x * W0, 0⟩
  ⟨U, E, N, O, V⟩

/-- The C library function `atan2(y, x)`: the argument of the point
`(x, y)`, in `(-π, π]`, with `atan2 0 0 = 0`. -/
noncomputable def atan2 (y x : ℝ) : ℝ := Complex.arg ⟨x, y⟩

/-- The body of `Satellite::altaz(obs, alt, az)` of `Plan13.cpp`, as a
function of the propagated Earth-fixed satellite position `S`: form the
line-of-sight vector `R = S - obs.O`, normalize it by its Euclidean norm
`r`, project on the observer triad, and return `(alt, az)` with the
negative-azimuth branch folded into `[0, 360)`. -/
noncomputable def Satellite.altaz (S : Vec3) (obs : Observer) : ℝ × ℝ :=
  let R := Vec3.sub S obs.O
  let r := Real.sqrt (R.x * R.x + R.y * R.y + R.z * R.z)
  let Rn : Vec3 := ⟨R.x / r, R.y / r, R.z / r⟩
  let u := Rn.x * obs.U.x + Rn.y * obs.U.y + Rn.z * obs.U.z
  let e := Rn.x * obs.E.x + Rn.y * obs.E.y + Rn.z * obs.E.z
  let n := Rn.x * obs.N.x + Rn.y * obs.N.y + Rn.z * obs.N.z
  let az0 := DEGREES (atan2 e n)
  let az := if az0 < 0 then az0 + 360 else az0
  (DEGREES (Real.arcsin u), az)

/-- The Euclidean norm `r` of the line-of-sight vector `R = S - obs.O`
that `Satellite::altaz` divides by when normalizing. -/
noncomputable def Satellite.altazDivisor (S : Vec3) (obs : Observer) : ℝ :=
  let R := Vec3.sub S obs.O
  Real.sqrt (R.x * R.x + R.y * R.y + R.z * R.z)

/-- The body of `Sun::altaz(obs, alt, az)` of `Plan13.cpp`, as a function
of the Earth-fixed solar direction `H`; textually the same computation as
`Satellite::altaz`, applied to `R = H - obs.O`. -/
noncomputable def Sun.altaz (H : Vec3) (obs : Observer) : ℝ × ℝ :=
  let R := Vec3.sub H obs.O
  let r := Real.sqrt (R.x * R.x + R.y * R.y + R.z * R.z)
  let Rn : Vec3 := ⟨R.x / r, R.y / r, R.z / r⟩
  let u := Rn.x * obs.U.x + Rn.y * obs.U.y + Rn.z * obs.U.z
  let e := Rn.x * obs.E.x + Rn.y * obs.E.y + Rn.z * obs.E.z
  let n := Rn.x * obs.N.x + Rn.y * obs.N.y + Rn.z * obs.N.z
  let az0 := DEGREES (atan2 e n)
  let az := if az0 < 0 then az0 + 360 else az0
  (DEGREES (Real.arcsin u), az)

/-- The body of `Sun::predict(dt)` of `Plan13.cpp`: closed-form solar
model; returns the pair `(SUN, H)` of the inertial and Earth-fixed
direction vectors that the code stores. -/
noncomputable def Sun.predict (dt : DateTime) : Vec3 × Vec3 :=
  let T : ℝ := ((dt.DN - fnday YG 1 0 : ℤ) : ℝ) + (dt.TN : ℚ)
  let GHAE := RADIANS G0 + T * WE
  let MRSE := RADIANS G0 + T * WW + Real.pi
  let MASE := RADIANS (MAS0 + T * MASD)
  let TAS := MRSE + EQC1 * Real.sin MASE + EQC2 * Real.sin (2 * MASE)
  let C := Real.cos TAS
  let S := Real.sin TAS
  let SUN : Vec3 := ⟨C, S * CNS, S * SNS⟩
  let Cg := Real.cos (-GHAE)
  let Sg := Real.sin (-GHAE)
  let H : Vec3 := ⟨SUN.x * Cg - SUN.y * Sg, SUN.x * Sg + SUN.y * Cg, SUN.z⟩
  (SUN, H)

/-- The denominator `DNOM = 1 - EC*cos(EA)` of the Newton-Raphson loop in
`Satellite::predict`. -/
noncomputable def keplerDNOM (EC EA : ℝ) : ℝ := 1 - EC * Real.cos EA

/-- The correction `D = (EA - EC*sin(EA) - M)/DNOM` computed in each pass
of the Newton-Raphson loop in `Satellite::predict`. -/
noncomputable def keplerD (EC M EA : ℝ) : ℝ :=
  (EA - EC * Real.sin EA - M) / keplerDNOM EC EA

/-- One pass of the Newton-Raphson loop in `Satellite::predict`:
`EA -= D`. -/
noncomputable def keplerNext (EC M EA : ℝ) : ℝ := EA - keplerD EC M EA

/-- The Kepler-equation residual `EA - EC*sin(EA) - M` at a state `EA` of
the loop. -/
noncomputable def keplerResidual (EC M EA : ℝ) : ℝ := EA - EC * Real.sin EA - M

/-- The sequence of loop states of the Newton-Raphson loop in
`Satellite::predict`, started from `EA = M` as the code does. -/
noncomputable def keplerSeq (EC M : ℝ) : ℕ → ℝ
  | 0 => M
  | n + 1 => keplerNext EC M (keplerSeq EC M n)

/-- The elapsed time `T = (double)(DN - DE) + (TN - TE)` (days) computed
by `Satellite::predict`. -/
noncomputable def predictT (DN DE : ℤ) (TN TE : ℝ) : ℝ :=
  ((DN - DE : ℤ) : ℝ) + (TN - TE)

/-- The drag half-term `DT = DC * T / 2` of `Satellite::predict`. -/
noncomputable def predictDT (DC T : ℝ) : ℝ := DC * T / 2

/-- The unwrapped mean anomaly `M = MA + MM * T * (1 - 3 * DT)` of
`Satellite::predict`. -/
noncomputable def predictM0 (MA MM DC T : ℝ) : ℝ :=
  MA + MM * T * (1 - 3 * predictDT DC T)

/-- The whole-revolution count `DR = (long)(M / (2π))` of
`Satellite::predict` (a C cast, hence truncation toward zero). -/
noncomputable def predictDR (M : ℝ) : ℤ := ctruncR (M / (2 * Real.pi))

/-- The wrapped mean anomaly `M -= DR * 2π` left by `Satellite::predict`
after removing whole revolutions. -/
noncomputable def predictMwrap (M : ℝ) : ℝ := M - (predictDR M : ℝ) * (2 * Real.pi)

/-- Whitespace characters skipped by the C numeric conversions as they
occur in TLE text. -/
def isSpaceChar (c : Char) : Bool := c = ' ' || c = '\t'

/-- Numeric value of a decimal digit character. -/
def digitVal (c : Char) : ℕ := c.toNat - Char.toNat '0'

/-- Value of a string of decimal digits, most significant first. -/
def digitsVal (l : List Char) : ℕ := l.foldl (fun a c => 10 * a + digitVal c) 0

/-- Modelled from the spec: the C library conversion `strtod` called by
`getdouble` with a `NULL` end pointer (the library function is not part of
the repository). Decimal forms `[ws][sign]digits[.digits]` are parsed;
`none` is returned when no conversion can be performed, in which case
`strtod` yields `0.0` (exponent suffixes, which no claim exercises, are
not modelled). -/
def strtodParse (s : List Char) : Option ℚ :=
  let s1 := s.dropWhile (fun c => isSpaceChar c)
  let sg : ℚ := if s1.head? = some '-' then -1 else 1
  let s2 := if s1.head? = some '-' ∨ s1.head? = some '+' then s1.tail else s1
  let ip := s2.takeWhile Char.isDigit
  let s3 := s2.drop ip.length
  let fp := if s3.head? = some '.' then s3.tail.takeWhile Char.isDigit else []
  if ip.isEmpty ∧ fp.isEmpty then none
  else some (sg * ((digitsVal ip : ℚ) + (digitsVal fp : ℚ) / (10 : ℚ) ^ fp.length))

/-- Modelled from the spec: the C library conversion `atol` called by
`getlong` (the library function is not part of the repository). Decimal
forms `[ws][sign]digits` are parsed; `none` is returned when no
conversion can be performed, in which case `atol` yields `0`. -/
def atolParse (s : List Char) : Option ℤ :=
  let s1 := s.dropWhile (fun c => isSpaceChar c)
  let sg : ℤ := if s1.head? = some '-' then -1 else 1
  let s2 := if s1.head? = some '-' ∨ s1.head? = some '+' then s1.tail else s1
  let ip := s2.takeWhile Char.isDigit
  if ip.isEmpty then none else some (sg * (digitsVal ip : ℤ))

/-- The fixed-width field `c[i0..i1)` that `getdouble`/`getlong` copy into
their local buffer before converting. -/
def fieldSlice (c : List Char) (i0 i1 : ℕ) : List Char := (c.drop i0).take (i1 - i0)

/-- `getdouble(c, i0, i1)` of `Plan13.cpp`: convert the fixed-width field
with `strtod`; an unconvertible field yields `0`. -/
def getdouble (c : List Char) (i0 i1 : ℕ) : ℚ := (strtodParse (fieldSlice c i0 i1)).getD 0

/-- `getlong(c, i0, i1)` of `Plan13.cpp`: convert the fixed-width field
with `atol`; an unconvertible field yields `0`. -/
def getlong (c : List Char) (i0 i1 : ℕ) : ℤ := (atolParse (fieldSlice c i0 i1)).getD 0

/-- The element fields stored by `Satellite::tle` as parsed from the two
TLE lines, kept in exact arithmetic: the direct `getdouble`/`getlong`
extractions (angles still in the units of the text, before the
real-valued `RADIANS`/`2π` scalings), the two-digit year windowing applied
to `YE`, the eccentricity scaling by `1e-7`, and the epoch split into
`DE`/`TE`. -/
structure TLERaw where
  N : ℤ
  YE : ℤ
  DE : ℤ
  TE : ℚ
  M2rev : ℚ
  INdeg : ℚ
  RAdeg : ℚ
  EC : ℚ
  WPdeg : ℚ
  MAdeg : ℚ
  MMrev : ℚ
  RV : ℤ
deriving DecidableEq, Repr

/-- The parsing part of `Satellite::tle(nm, l1, l2)` of `Plan13.cpp`:
all fixed-column `getdouble`/`getlong` field extractions, the year
windowing `YE < 58 ? YE + 2000 : YE + 1900`, the `EC` scaling, and the
conversion of the epoch day `TE` into `DE`/`TE`. The subsequent
real-valued unit conversions and derived constants (`N0`, `A_0`, `B_0`,
`PC`, `QD`, `WD`, `DC`), which no claim quantifies over, are not
reproduced in this record. -/
def Satellite.tle (l1 l2 : List Char) : TLERaw :=
  let N := getlong l2 2 7
  let YE0 := getlong l1 18 20
  let YE := if YE0 < 58 then YE0 + 2000 else YE0 + 1900
  let TE0 := getdouble l1 20 32
  let M2rev := getdouble l1 33 43
  let INdeg := getdouble l2 8 16
  let RAdeg := getdouble l2 17 25
  let EC := getdouble l2 26 33 / 10000000
  let WPdeg := getdouble l2 34 42
  let MAdeg := getdouble l2 43 51
  let MMrev := getdouble l2 52 63
  let RV := getlong l2 63 68
  let DE := fnday YE 1 0 + ctrunc TE0
  let TE := TE0 - (ctrunc TE0 : ℚ)
  ⟨N, YE, DE, TE, M2rev, INdeg, RAdeg, EC, WPdeg, MAdeg, MMrev, RV⟩

/-- A character list containing no decimal digit (so no number can be
parsed from it by the C conversions). -/
def NoDigit (l : List Char) : Prop := ∀ c ∈ l, c.isDigit = false

instance (l : List Char) : Decidable (NoDigit l) := by
  unfold NoDigit; infer_instance

/-!
## Theorems
-/

/-- C6: for every geodetic input, the `Up`, `East`, `North` vectors
computed by the `Observer` constructor are pairwise orthogonal and of
unit magnitude — here even exactly, in real arithmetic, hence in
particular within the claimed `1e-9` tolerance. -/
theorem observer_triad_orthonormal (lat lng hgt : ℝ) :
    (mkObserver lat lng hgt).U.dot (mkObserver lat lng hgt).E = 0 ∧
    (mkObserver lat lng hgt).U.dot (mkObserver lat lng hgt).N = 0 ∧
    (mkObserver lat lng hgt).E.dot (mkObserver lat lng hgt).N = 0 ∧
    (mkObserver lat lng hgt).U.dot (mkObserver lat lng hgt).U = 1 ∧
    (mkObserver lat lng hgt).E.dot (mkObserver lat lng hgt).E = 1 ∧
    (mkObserver lat lng hgt).N.dot (mkObserver lat lng hgt).N = 1 := by
  have hA := Real.sin_sq_add_cos_sq (RADIANS lat)
  have hO := Real.sin_sq_add_cos_sq (RADIANS lng)
  simp only [mkObserver, Vec3.dot]
  refine ⟨by ring, ?_, by ring, ?_, ?_, ?_⟩
  · linear_combination (-(Real.cos (RADIANS lat) * Real.sin (RADIANS lat))) * hO
  · linear_combination (Real.cos (RADIANS lat)) ^ 2 * hO + hA
  · linear_combination hO
  · linear_combination (Real.sin (RADIANS lat)) ^ 2 * hO + hA

/-- C9: when the satellite's Earth-fixed position coincides with the
observer's position, the norm `r` that `Satellite::altaz` divides by in
the normalization step is `0` — a divide-by-zero on the only code path,
with no special case; in the real-valued embedding (where `x / 0 = 0`)
the output collapses to the artifact `(0, 0)` produced by that zero
division rather than any validly computed pair of angles. -/
theorem altaz_divides_by_zero_at_observer (obs : Observer) (S : Vec3)
    (h : S = obs.O) :
    Satellite.altazDivisor S obs = 0 ∧ Satellite.altaz S obs = (0, 0) := by
  subst h
  have hz : Vec3.sub obs.O obs.O = ⟨0, 0, 0⟩ := by
    simp [Vec3.sub]
  have harg : atan2 0 0 = 0 := by
    have h0 : (⟨0, 0⟩ : ℂ) = 0 := Complex.ext rfl rfl
    rw [atan2, h0, Complex.arg_zero]
  constructor
  · rw [Satellite.altazDivisor, hz]
    simp
  · rw [Satellite.altaz, hz]
    simp [harg, DEGREES]

/-- C9 witness: a concrete observer whose position fed back as the
satellite position produces the zero divisor and the collapsed output. -/
theorem altaz_divides_by_zero_at_observer_witness :
    Satellite.altazDivisor (mkObserver 0 0 0).O (mkObserver 0 0 0) = 0 ∧
    Satellite.altaz (mkObserver 0 0 0).O (mkObserver 0 0 0) = (0, 0) :=
  altaz_divides_by_zero_at_observer (mkObserver 0 0 0) (mkObserver 0 0 0).O rfl

/-- The azimuth branch of the look-angle routines: converting an `atan2`
value to degrees and folding a negative result by `+360` always lands in
`[0, 360)`. -/
theorem azBranch_mem_Ico (e n : ℝ) :
    0 ≤ (if DEGREES (atan2 e n) < 0 then DEGREES (atan2 e n) + 360
         else DEGREES (atan2 e n)) ∧
    (if DEGREES (atan2 e n) < 0 then DEGREES (atan2 e n) + 360
     else DEGREES (atan2 e n)) < 360 := by
  have hpi : 0 < Real.pi := Real.pi_pos
  have harg := Complex.arg_mem_Ioc (⟨n, e⟩ : ℂ)
  obtain ⟨h1, h2⟩ := harg
  have hub : DEGREES (atan2 e n) ≤ 180 := by
    rw [DEGREES, atan2, div_le_iff₀ hpi]
    nlinarith
  have hlb : -180 < DEGREES (atan2 e n) := by
    rw [DEGREES, atan2, lt_div_iff₀ hpi]
    nlinarith
  by_cases hneg : DEGREES (atan2 e n) < 0
  · simp only [if_pos hneg]
    constructor <;> linarith
  · simp only [if_neg hneg]
    constructor <;> linarith

/-- C7: for every observer and every position with a nonzero
line-of-sight vector, the azimuth returned by `Satellite::altaz` — and by
the textually identical `Sun::altaz` — lies in `[0, 360)` degrees. -/
theorem altaz_azimuth_mem_Ico (P : Vec3) (obs : Observer)
    (h : Vec3.sub P obs.O ≠ ⟨0, 0, 0⟩) :
    (0 ≤ (Satellite.altaz P obs).2 ∧ (Satellite.altaz P obs).2 < 360) ∧
    (0 ≤ (Sun.altaz P obs).2 ∧ (Sun.altaz P obs).2 < 360) := by
  constructor
  · rw [Satellite.altaz]
    exact azBranch_mem_Ico _ _
  · rw [Sun.altaz]
    exact azBranch_mem_Ico _ _

/-- C7 witness: a concrete position/observer pair with nonzero
line-of-sight vector at which the azimuth bounds hold. -/
theorem altaz_azimuth_mem_Ico_witness :
    (0 ≤ (Satellite.altaz ⟨0, 0, 1⟩ (mkObserver 0 0 0)).2 ∧
      (Satellite.altaz ⟨0, 0, 1⟩ (mkObserver 0 0 0)).2 < 360) ∧
    (0 ≤ (Sun.altaz ⟨0, 0, 1⟩ (mkObserver 0 0 0)).2 ∧
      (Sun.altaz ⟨0, 0, 1⟩ (mkObserver 0 0 0)).2 < 360) := by
  refine altaz_azimuth_mem_Ico ⟨0, 0, 1⟩ (mkObserver 0 0 0) ?_
  have hOz : (mkObserver 0 0 0).O.z = 0 := by
    simp [mkObserver, RADIANS]
  intro hcon
  have hzz := congrArg Vec3.z hcon
  rw [Vec3.sub] at hzz
  simp [hOz] at hzz

/-- C10: after every `Sun::predict` call the inertial direction `SUN` and
the Earth-fixed direction `H` have Euclidean norm exactly 1 in real
arithmetic, and `Sun::altaz` then runs the very same observer-relative
transform as `Satellite::altaz` on this unit vector — so the vector it
normalizes is `H` minus the observer's kilometer-scale geocentric
position, not a unit solar direction. -/
theorem sun_predict_unit_vectors (dt : DateTime) (obs : Observer) :
    Real.sqrt ((Sun.predict dt).1.x * (Sun.predict dt).1.x +
      (Sun.predict dt).1.y * (Sun.predict dt).1.y +
      (Sun.predict dt).1.z * (Sun.predict dt).1.z) = 1 ∧
    Real.sqrt ((Sun.predict dt).2.x * (Sun.predict dt).2.x +
      (Sun.predict dt).2.y * (Sun.predict dt).2.y +
      (Sun.predict dt).2.z * (Sun.predict dt).2.z) = 1 ∧
    Sun.altaz (Sun.predict dt).2 obs = Satellite.altaz (Sun.predict dt).2 obs := by
  rw [Sun.predict]
  simp only [CNS, SNS]
  set T : ℝ := ((dt.DN - fnday YG 1 0 : ℤ) : ℝ) + (dt.TN : ℚ) with hT
  set GHAE := RADIANS G0 + T * WE with hGHAE
  set MRSE := RADIANS G0 + T * WW + Real.pi with hMRSE
  set MASE := RADIANS (MAS0 + T * MASD) with hMASE
  set TAS := MRSE + EQC1 * Real.sin MASE + EQC2 * Real.sin (2 * MASE) with hTAS
  have h1 := Real.sin_sq_add_cos_sq TAS
  have h2 := Real.sin_sq_add_cos_sq INS
  have h3 := Real.sin_sq_add_cos_sq (-GHAE)
  have hsun : Real.cos TAS * Real.cos TAS +
      Real.sin TAS * Real.cos INS * (Real.sin TAS * Real.cos INS) +
      Real.sin TAS * Real.sin INS * (Real.sin TAS * Real.sin INS) = 1 := by
    nlinarith [h1, h2]
  have hh : (Real.cos TAS * Real.cos (-GHAE) -
        Real.sin TAS * Real.cos INS * Real.sin (-GHAE)) *
        (Real.cos TAS * Real.cos (-GHAE) -
        Real.sin TAS * Real.cos INS * Real.sin (-GHAE)) +
      (Real.cos TAS * Real.sin (-GHAE) +
        Real.sin TAS * Real.cos INS * Real.cos (-GHAE)) *
        (Real.cos TAS * Real.sin (-GHAE) +
        Real.sin TAS * Real.cos INS * Real.cos (-GHAE)) +
      Real.sin TAS * Real.sin INS * (Real.sin TAS * Real.sin INS) = 1 := by
    nlinarith [h1, h2, h3]
  refine ⟨?_, ?_, rfl⟩
  · rw [hsun]; exact Real.sqrt_one
  · rw [hh]; exact Real.sqrt_one

/-- C5 counterexample: `DateTime::add` does not renormalize a negative
fractional day — adding `-1/2` to day 0, time 0 leaves `TN = -1/2`,
outside `[0, 1)`, because the C cast `(long)TN` truncates toward zero. -/
theorem datetime_add_negative_not_renormalized :
    ¬ (0 ≤ (DateTime.add ⟨0, 0⟩ (-(1 : ℚ) / 2)).TN ∧
       (DateTime.add ⟨0, 0⟩ (-(1 : ℚ) / 2)).TN < 1) := by
  have hTN : (DateTime.add ⟨0, 0⟩ (-(1 : ℚ) / 2)).TN = -(1 : ℚ) / 2 := by
    norm_num [DateTime.add, ctrunc]
  rw [hTN]
  norm_num

/-- C5 (amended): after `DateTime::add(days)`, the sum `DN + TN` always
accounts exactly for the added days, and whenever the intermediate value
`TN + days` is nonnegative (in particular for any forward step from a
normalized state) the fractional day `TN` is renormalized into `[0, 1)`
with the whole-day part carried into `DN`; a negative intermediate value
is instead left in `(-1, 0]`. -/
theorem datetime_add_renormalizes (dt : DateTime) (days : ℚ)
    (h : 0 ≤ dt.TN + days) :
    0 ≤ (dt.add days).TN ∧ (dt.add days).TN < 1 ∧
    ((dt.add days).DN : ℚ) + (dt.add days).TN = (dt.DN : ℚ) + dt.TN + days := by
  have hct : ctrunc (dt.TN + days) = ⌊dt.TN + days⌋ := if_pos h
  constructor
  · rw [DateTime.add]
    simp only [hct]
    have := Int.fract_nonneg (dt.TN + days)
    rw [Int.fract] at this
    linarith [this]
  constructor
  · rw [DateTime.add]
    simp only [hct]
    have := Int.fract_lt_one (dt.TN + days)
    rw [Int.fract] at this
    linarith [this]
  · rw [DateTime.add]
    push_cast
    ring

/-- C5 witness: a concrete nonnegative-intermediate addition at which the
amended statement applies. -/
theorem datetime_add_renormalizes_witness :
    0 ≤ (DateTime.add ⟨0, 0⟩ ((3 : ℚ) / 2)).TN ∧
    (DateTime.add ⟨0, 0⟩ ((3 : ℚ) / 2)).TN < 1 ∧
    ((DateTime.add ⟨0, 0⟩ ((3 : ℚ) / 2)).DN : ℚ) +
      (DateTime.add ⟨0, 0⟩ ((3 : ℚ) / 2)).TN =
      (((0 : ℤ) : ℚ)) + (0 : ℚ) + (3 : ℚ) / 2 :=
  datetime_add_renormalizes ⟨0, 0⟩ ((3 : ℚ) / 2) (by norm_num)

/-- C4 counterexample: for a propagation time one day before the element
epoch (elapsed time `T = -1`), with `MA = 0`, `MM = 3` and no drag, the
mean anomaly produced by the revolution-removal step of
`Satellite::predict` is `-3`, which is not in `[0, 2π)`: the C cast in
`DR = (long)(M / (2π))` truncates toward zero, so negative mean anomalies
are not wrapped up into `[0, 2π)`. -/
theorem predict_meanAnomaly_negative_not_wrapped :
    ¬ (0 ≤ predictMwrap (predictM0 0 3 0 (predictT 0 0 0 1)) ∧
       predictMwrap (predictM0 0 3 0 (predictT 0 0 0 1)) < 2 * Real.pi) := by
  have hpi : (0 : ℝ) < Real.pi := Real.pi_pos
  have hT : predictT 0 0 0 1 = -1 := by
    rw [predictT]; norm_num
  have hM0 : predictM0 0 3 0 (-1) = -3 := by
    rw [predictM0, predictDT]; ring
  have hDR : predictDR (-3) = 0 := by
    rw [predictDR, ctruncR]
    have hneg : ¬ (0 ≤ (-3 : ℝ) / (2 * Real.pi)) := by
      rw [not_le]
      exact div_neg_of_neg_of_pos (by norm_num) (by linarith)
    rw [if_neg hneg]
    have h1 : ⌊-((-3 : ℝ) / (2 * Real.pi))⌋ = 0 := by
      rw [Int.floor_eq_zero_iff]
      constructor
      · rw [neg_div, neg_neg]
        positivity
      · rw [neg_div, neg_neg, div_lt_one (by linarith)]
        linarith [Real.pi_gt_three]
    rw [h1, neg_zero]
  have hwrap : predictMwrap (predictM0 0 3 0 (predictT 0 0 0 1)) = -3 := by
    rw [hT, hM0, predictMwrap, hDR]
    push_cast
    ring
  rw [hwrap]
  intro hcon
  linarith [hcon.1]

/-- C4 (amended): the mean anomaly left by the revolution-removal step of
`Satellite::predict` lies in `[0, 2π)` whenever the unwrapped mean
anomaly `M = MA + MM·T·(1 - 3·DT)` is nonnegative (as it is for
propagation at or after the element epoch with nonnegative elements); for
a negative unwrapped anomaly the truncating cast leaves it in `(-2π, 0]`
instead. -/
theorem predict_meanAnomaly_wrapped_of_nonneg (MA MM DC T : ℝ)
    (h : 0 ≤ predictM0 MA MM DC T) :
    0 ≤ predictMwrap (predictM0 MA MM DC T) ∧
    predictMwrap (predictM0 MA MM DC T) < 2 * Real.pi := by
  have hpi : (0 : ℝ) < 2 * Real.pi := by linarith [Real.pi_pos]
  set M := predictM0 MA MM DC T with hM
  have hq : 0 ≤ M / (2 * Real.pi) := div_nonneg h (by linarith)
  have hDR : predictDR M = ⌊M / (2 * Real.pi)⌋ := by
    rw [predictDR, ctruncR, if_pos hq]
  have hMeq : M = M / (2 * Real.pi) * (2 * Real.pi) :=
    (div_mul_cancel₀ M (ne_of_gt hpi)).symm
  have hfr0 := Int.fract_nonneg (M / (2 * Real.pi))
  have hfr1 := Int.fract_lt_one (M / (2 * Real.pi))
  rw [Int.fract] at hfr0 hfr1
  constructor
  · rw [predictMwrap, hDR]
    calc (0 : ℝ) ≤ (M / (2 * Real.pi) - ⌊M / (2 * Real.pi)⌋) * (2 * Real.pi) :=
          mul_nonneg hfr0 (le_of_lt hpi)
    _ = M - (⌊M / (2 * Real.pi)⌋ : ℝ) * (2 * Real.pi) := by
          rw [sub_mul, ← hMeq]
  · rw [predictMwrap, hDR]
    have : (M / (2 * Real.pi) - ⌊M / (2 * Real.pi)⌋) * (2 * Real.pi) < 1 * (2 * Real.pi) :=
      mul_lt_mul_of_pos_right hfr1 hpi
    rw [sub_mul, ← hMeq, one_mul] at this
    linarith

/-- C4 witness: a concrete nonnegative unwrapped mean anomaly at which the
amended wrapping statement applies. -/
theorem predict_meanAnomaly_wrapped_of_nonneg_witness :
    0 ≤ predictMwrap (predictM0 3 0 0 0) ∧
    predictMwrap (predictM0 3 0 0 0) < 2 * Real.pi :=
  predict_meanAnomaly_wrapped_of_nonneg 3 0 0 0
    (by rw [predictM0, predictDT]; norm_num)

/-- Taking the maximal digit run of a digit-free character list yields
nothing. -/
theorem takeWhile_isDigit_eq_nil {l : List Char} (h : NoDigit l) :
    l.takeWhile Char.isDigit = [] := by
  cases l with
  | nil => rfl
  | cons a t =>
      have ha := h a (List.mem_cons_self a t)
      simp [List.takeWhile_cons, ha]

/-- A digit-free character list admits no `strtod` conversion. -/
theorem strtodParse_eq_none_of_noDigit (l : List Char) (h : NoDigit l) :
    strtodParse l = none := by
  simp only [strtodParse]
  have h1 : NoDigit (l.dropWhile (fun c => isSpaceChar c)) :=
    fun c hc => h c ((List.dropWhile_sublist _).subset hc)
  generalize hgen : l.dropWhile (fun c => isSpaceChar c) = s1 at h1
  by_cases hsg : s1.head? = some '-' ∨ s1.head? = some '+'
  · simp only [if_pos hsg]
    have h2 : NoDigit s1.tail := fun c hc => h1 c ((List.tail_sublist _).subset hc)
    rw [takeWhile_isDigit_eq_nil h2]
    simp only [List.length_nil, List.drop_zero, List.isEmpty_nil]
    by_cases hdot : s1.tail.head? = some '.'
    · simp only [if_pos hdot]
      have h3 : NoDigit s1.tail.tail := fun c hc => h2 c ((List.tail_sublist _).subset hc)
      rw [takeWhile_isDigit_eq_nil h3]
      simp
    · simp only [if_neg hdot]
      simp
  · simp only [if_neg hsg]
    rw [takeWhile_isDigit_eq_nil h1]
    simp only [List.length_nil, List.drop_zero, List.isEmpty_nil]
    by_cases hdot : s1.head? = some '.'
    · simp only [if_pos hdot]
      have h2 : NoDigit s1.tail := fun c hc => h1 c ((List.tail_sublist _).subset hc)
      rw [takeWhile_isDigit_eq_nil h2]
      simp
    · simp only [if_neg hdot]
      simp

/-- A digit-free character list admits no `atol` conversion. -/
theorem atolParse_eq_none_of_noDigit (l : List Char) (h : NoDigit l) :
    atolParse l = none := by
  simp only [atolParse]
  have h1 : NoDigit (l.dropWhile (fun c => isSpaceChar c)) :=
    fun c hc => h c ((List.dropWhile_sublist _).subset hc)
  generalize hgen : l.dropWhile (fun c => isSpaceChar c) = s1 at h1
  by_cases hsg : s1.head? = some '-' ∨ s1.head? = some '+'
  · simp only [if_pos hsg]
    have h2 : NoDigit s1.tail := fun c hc => h1 c ((List.tail_sublist _).subset hc)
    rw [takeWhile_isDigit_eq_nil h2]
    simp
  · simp only [if_neg hsg]
    rw [takeWhile_isDigit_eq_nil h1]
    simp

/-- C8 counterexample: for two 69-blank TLE lines every fixed-width field
is unparsable, yet `Satellite::tle` does not store `0` in the epoch-year
field: the two-digit windowing turns the zero parse into the stored value
`YE = 2000`. -/
theorem tle_blank_lines_year_not_zero :
    (Satellite.tle (List.replicate 69 ' ') (List.replicate 69 ' ')).YE = 2000 ∧
    (Satellite.tle (List.replicate 69 ' ') (List.replicate 69 ' ')).YE ≠ 0 := by
  constructor
  · rfl
  · intro hcon
    rw [show (Satellite.tle (List.replicate 69 ' ')
        (List.replicate 69 ' ')).YE = 2000 from rfl] at hcon
    exact absurd hcon (by norm_num)

/-- C8 (amended): a fixed-width field containing no parsable number (here:
no decimal digit at all) makes `getdouble`/`getlong` return `0` and the
parse complete without any error signal; the zero parse is stored
unchanged in the element fields, except that the two-digit epoch year is
windowed, so a zero year parse is stored as `YE = 2000`. -/
theorem tle_unparsable_field_parses_as_zero (c l1 l2 : List Char) (i0 i1 : ℕ)
    (h : NoDigit (fieldSlice c i0 i1)) (hYE : NoDigit (fieldSlice l1 18 20)) :
    getdouble c i0 i1 = 0 ∧ getlong c i0 i1 = 0 ∧
    (Satellite.tle l1 l2).YE = 2000 := by
  refine ⟨?_, ?_, ?_⟩
  · rw [getdouble, strtodParse_eq_none_of_noDigit _ h]
    rfl
  · rw [getlong, atolParse_eq_none_of_noDigit _ h]
    rfl
  · have hYE0 : getlong l1 18 20 = 0 := by
      rw [getlong, atolParse_eq_none_of_noDigit _ hYE]
      rfl
    simp only [Satellite.tle, hYE0]
    norm_num

/-- Two-sided integer bounds for a truncation of a nonnegative rational
written as `num/den`: since the value is nonnegative the C truncation is
the floor, so `den * ctrunc(num/den)` is within `den` below `num`. -/
theorem ctrunc_scaled (num den : ℤ) (hden : 0 < den) (X : ℚ)
    (hX : X = (num : ℚ) / (den : ℚ)) (hnn : 0 ≤ num) :
    den * ctrunc X ≤ num ∧ num < den * ctrunc X + den := by
  have hdenQ : (0 : ℚ) < (den : ℚ) := by exact_mod_cast hden
  have hXnn : 0 ≤ X := by
    rw [hX]
    exact div_nonneg (by exact_mod_cast hnn) hdenQ.le
  have hcf : ctrunc X = ⌊X⌋ := if_pos hXnn
  have hle : (⌊X⌋ : ℚ) ≤ (num : ℚ) / (den : ℚ) := hX ▸ Int.floor_le X
  have hlt : (num : ℚ) / (den : ℚ) < (⌊X⌋ : ℚ) + 1 := hX ▸ Int.lt_floor_add_one X
  rw [le_div_iff₀ hdenQ] at hle
  rw [div_lt_iff₀ hdenQ] at hlt
  constructor
  · rw [hcf]
    have : (⌊X⌋ * den : ℚ) ≤ (num : ℚ) := hle
    have h2 : ⌊X⌋ * den ≤ num := by exact_mod_cast this
    linarith [h2]
  · rw [hcf]
    have : (num : ℚ) < ((⌊X⌋ : ℚ) + 1) * (den : ℚ) := hlt
    have h2 : num < (⌊X⌋ + 1) * den := by exact_mod_cast this
    linarith [h2]

/-- Inverse property of the day-number formula: decoding `fndate` exactly
undoes the `fnday` encoding (stated for the already-shifted year `y1` and
month `m1 ∈ [3, 14]`, with the day bounds that valid civil dates in the
supported range satisfy). -/
theorem fndate_fnday_core (y1 m1 d : ℤ) (hy : 1899 ≤ y1)
    (hm3 : 3 ≤ m1) (hm14 : m1 ≤ 14) (hd1 : 1 ≤ d)
    (hd2 : 100 * d + 100 * ctrunc (((m1 : ℚ) + 1) * (30.6 : ℚ)) < 3061 * m1 + 6122)
    (hfeb : m1 = 14 → d ≤ 28 ∨ (d = 29 ∧ y1 % 4 = 3)) :
    fndate (ctrunc ((y1 : ℚ) * (365.25 : ℚ)) +
        ctrunc (((m1 : ℚ) + 1) * (30.6 : ℚ)) + d - 428) =
      (if m1 > 12 then y1 + 1 else y1, if m1 > 12 then m1 - 12 else m1, d) := by
  set A := ctrunc ((y1 : ℚ) * (365.25 : ℚ)) with hA
  set B := ctrunc (((m1 : ℚ) + 1) * (30.6 : ℚ)) with hB
  have hAb : 4 * A ≤ 1461 * y1 ∧ 1461 * y1 < 4 * A + 4 := by
    rw [hA]
    exact ctrunc_scaled (1461 * y1) 4 (by norm_num) _ (by push_cast; ring) (by omega)
  have hBb : 5 * B ≤ 153 * (m1 + 1) ∧ 153 * (m1 + 1) < 5 * B + 5 := by
    rw [hB]
    exact ctrunc_scaled (153 * (m1 + 1)) 5 (by norm_num) _ (by push_cast; ring)
      (by omega)
  simp only [fndate]
  have hc1 : ((A + B + d - 428 + 428 : ℤ) : ℚ) - 122.1 = ((A + B + d : ℤ) : ℚ) - 122.1 := by
    push_cast; ring
  rw [hc1]
  have hc2 : (((A + B + d : ℤ) : ℚ) - 122.1) / 365.25 =
      ((20 * (A + B + d) - 2442 : ℤ) : ℚ) / ((7305 : ℤ) : ℚ) := by
    push_cast; ring
  rw [hc2]
  have hyb := ctrunc_scaled (20 * (A + B + d) - 2442) 7305 (by norm_num) _ rfl (by omega)
  have hFy : ctrunc (((20 * (A + B + d) - 2442 : ℤ) : ℚ) / ((7305 : ℤ) : ℚ)) = y1 := by
    omega
  rw [hFy, ← hA]
  have hc3 : (A + B + d - 428 + 428 - A : ℤ) = B + d := by ring
  rw [hc3]
  have hc4 : ((B + d : ℤ) : ℚ) / 30.61 = ((100 * (B + d) : ℤ) : ℚ) / ((3061 : ℤ) : ℚ) := by
    push_cast; ring
  rw [hc4]
  have hmb := ctrunc_scaled (100 * (B + d)) 3061 (by norm_num) _ rfl (by omega)
  have hFm : ctrunc (((100 * (B + d) : ℤ) : ℚ) / ((3061 : ℤ) : ℚ)) = m1 + 1 := by
    omega
  rw [hFm]
  have hc5 : ((m1 + 1 : ℤ) : ℚ) * 30.6 = ((m1 : ℚ) + 1) * (30.6 : ℚ) := by
    push_cast; ring
  rw [hc5, ← hB]
  have hc6 : (B + d - B : ℤ) = d := by ring
  rw [hc6]
  have hc7 : (m1 + 1 - 1 : ℤ) = m1 := by ring
  rw [hc7]
  by_cases h12 : m1 > 12
  · rw [if_pos h12, if_pos h12, if_pos h12]
  · rw [if_neg h12, if_neg h12, if_neg h12]

/-- Specialization of the core inverse lemma to unshifted months
`3 ≤ m ≤ 12`. -/
theorem fndate_fnday_ge3 (y m d : ℤ) (hy1 : 1900 ≤ y) (hm3 : 3 ≤ m)
    (hm12 : m ≤ 12) (hd1 : 1 ≤ d)
    (hd2 : 100 * d + 100 * ctrunc (((m : ℚ) + 1) * (30.6 : ℚ)) < 3061 * m + 6122) :
    fndate (fnday y m d) = (y, m, d) := by
  have hfnday : fnday y m d = ctrunc ((y : ℚ) * (365.25 : ℚ)) +
      ctrunc (((m : ℚ) + 1) * (30.6 : ℚ)) + d - 428 := by
    simp only [fnday, YM, if_neg (by omega : ¬ m < 3)]
  rw [hfnday, fndate_fnday_core y m d (by omega) hm3 (by omega) hd1 hd2 (by omega)]
  rw [if_neg (by omega : ¬ m > 12), if_neg (by omega : ¬ m > 12)]

/-- Specialization of the core inverse lemma to January and February,
which `fnday` encodes as months 13 and 14 of the previous year. -/
theorem fndate_fnday_lt3 (y m d : ℤ) (hy1 : 1900 ≤ y) (hm1 : 1 ≤ m)
    (hm3 : m < 3) (hd1 : 1 ≤ d)
    (hd2 : 100 * d + 100 * ctrunc ((((m + 12 : ℤ) : ℚ) + 1) * (30.6 : ℚ)) <
      3061 * (m + 12) + 6122)
    (hfeb : m + 12 = 14 → d ≤ 28 ∨ (d = 29 ∧ (y - 1) % 4 = 3)) :
    fndate (fnday y m d) = (y, m, d) := by
  have hfnday : fnday y m d = ctrunc (((y - 1 : ℤ) : ℚ) * (365.25 : ℚ)) +
      ctrunc ((((m + 12 : ℤ) : ℚ) + 1) * (30.6 : ℚ)) + d - 428 := by
    simp only [fnday, YM, if_pos hm3]
  rw [hfnday,
    fndate_fnday_core (y - 1) (m + 12) d (by omega) (by omega) (by omega) hd1 hd2 hfeb]
  rw [if_pos (by omega : m + 12 > 12), if_pos (by omega : m + 12 > 12)]
  simp only [Prod.mk.injEq]
  refine ⟨by omega, by omega, trivial⟩

/-- The day-number mapping of `Plan13.cpp` is invertible: `fndate` undoes
`fnday` on every valid civil date of the supported 1900--2100 range. -/
theorem fndate_fnday (y m d : ℤ) (hy1 : 1900 ≤ y) (hy2 : y ≤ 2100)
    (hv : ValidDate y m d) : fndate (fnday y m d) = (y, m, d) := by
  obtain ⟨hm1, hm12, hd1, hdM⟩ := hv
  by_cases hm3 : m < 3
  · rcases (by omega : m = 1 ∨ m = 2) with rfl | rfl
    · -- January
      have hML : monthLength y 1 = 31 := by norm_num [monthLength]
      rw [hML] at hdM
      refine fndate_fnday_lt3 y 1 d hy1 (by omega) (by omega) hd1 ?_ (by omega)
      have hB : ctrunc ((((1 + 12 : ℤ) : ℚ) + 1) * (30.6 : ℚ)) = 428 := by
        norm_num [ctrunc]
      rw [hB]
      omega
    · -- February
      have hML : monthLength y 2 = if isLeap y then 29 else 28 := by
        norm_num [monthLength]
      rw [hML] at hdM
      have hB : ctrunc ((((2 + 12 : ℤ) : ℚ) + 1) * (30.6 : ℚ)) = 459 := by
        norm_num [ctrunc]
      have hd29 : d ≤ 29 := by
        by_cases hL : isLeap y <;> simp [hL] at hdM <;> omega
      refine fndate_fnday_lt3 y 2 d hy1 (by omega) (by omega) hd1 ?_ ?_
      · rw [hB]; omega
      · intro _
        by_cases hL : isLeap y
        · simp only [if_pos hL] at hdM
          rcases (by omega : d ≤ 28 ∨ d = 29) with hc | hc
          · exact Or.inl hc
          · refine Or.inr ⟨hc, ?_⟩
            have h4 : y % 4 = 0 := by
              simp only [isLeap, Bool.and_eq_true, beq_iff_eq] at hL
              exact hL.1
            omega
        · simp only [if_neg hL] at hdM
          exact Or.inl hdM
  · push_neg at hm3
    refine fndate_fnday_ge3 y m d hy1 hm3 hm12 hd1 ?_
    have hBs := ctrunc_scaled (153 * (m + 1)) 5 (by norm_num)
      (((m : ℚ) + 1) * (30.6 : ℚ)) (by push_cast; ring) (by omega)
    rcases le_or_lt d 30 with hd30 | hd31
    · omega
    · have hd31' : d = 31 := by
        have hub : monthLength y m ≤ 31 := by
          simp only [monthLength]
          split_ifs <;> omega
        omega
      have hmcase : m = 3 ∨ m = 5 ∨ m = 7 ∨ m = 8 ∨ m = 10 ∨ m = 12 := by
        rcases (by omega : m = 3 ∨ m = 4 ∨ m = 5 ∨ m = 6 ∨ m = 7 ∨ m = 8 ∨ m = 9 ∨
            m = 10 ∨ m = 11 ∨ m = 12) with rfl|rfl|rfl|rfl|rfl|rfl|rfl|rfl|rfl|rfl
        all_goals first
          | omega
          | (norm_num [monthLength] at hdM; omega)
      rcases hmcase with rfl|rfl|rfl|rfl|rfl|rfl <;> rw [hd31'] <;> norm_num [ctrunc]

/-- C2: calendar round trip — `DateTime::settime` followed by
`DateTime::gettime` reproduces every valid calendar date and time of day
of the supported 1900--2100 range exactly, in particular to within one
second. -/
theorem settime_gettime_roundtrip (y mo d h mi s : ℤ)
    (hy1 : 1900 ≤ y) (hy2 : y ≤ 2100) (hv : ValidDate y mo d)
    (hh0 : 0 ≤ h) (hh1 : h ≤ 23) (hmi0 : 0 ≤ mi) (hmi1 : mi ≤ 59)
    (hs0 : 0 ≤ s) (hs1 : s ≤ 59) :
    DateTime.gettime (DateTime.settime y mo d h mi s) = (y, mo, d, h, mi, s) := by
  have hdate := fndate_fnday y mo d hy1 hy2 hv
  simp only [DateTime.gettime, DateTime.settime, hdate]
  have hfr1 : (0 : ℚ) ≤ (mi : ℚ) / 60 + (s : ℚ) / 3600 := by
    have h1 : (0 : ℚ) ≤ (mi : ℚ) := by exact_mod_cast hmi0
    have h2 : (0 : ℚ) ≤ (s : ℚ) := by exact_mod_cast hs0
    positivity
  have hfr2 : (mi : ℚ) / 60 + (s : ℚ) / 3600 < 1 := by
    have heq : (mi : ℚ) / 60 + (s : ℚ) / 3600 = ((60 * mi + s : ℤ) : ℚ) / 3600 := by
      push_cast; ring
    rw [heq, div_lt_one (by norm_num)]
    exact_mod_cast (by omega : 60 * mi + s < 3600)
  have ht0 : (((h : ℚ) + (mi : ℚ) / 60 + (s : ℚ) / 3600) / 24) * 24 =
      (h : ℚ) + ((mi : ℚ) / 60 + (s : ℚ) / 3600) := by ring
  rw [ht0]
  have hct0 : ctrunc ((h : ℚ) + ((mi : ℚ) / 60 + (s : ℚ) / 3600)) = h := by
    unfold ctrunc
    rw [if_pos (add_nonneg (by exact_mod_cast hh0) hfr1), Int.floor_int_add,
      Int.floor_eq_zero_iff.mpr ⟨hfr1, hfr2⟩, add_zero]
  rw [hct0]
  have ht1 : ((h : ℚ) + ((mi : ℚ) / 60 + (s : ℚ) / 3600) - (h : ℚ)) * 60 =
      (mi : ℚ) + (s : ℚ) / 60 := by ring
  rw [ht1]
  have hgr1 : (0 : ℚ) ≤ (s : ℚ) / 60 := by
    have h2 : (0 : ℚ) ≤ (s : ℚ) := by exact_mod_cast hs0
    positivity
  have hgr2 : (s : ℚ) / 60 < 1 := by
    rw [div_lt_one (by norm_num)]
    exact_mod_cast (by omega : s < 60)
  have hct1 : ctrunc ((mi : ℚ) + (s : ℚ) / 60) = mi := by
    unfold ctrunc
    rw [if_pos (add_nonneg (by exact_mod_cast hmi0) hgr1), Int.floor_int_add,
      Int.floor_eq_zero_iff.mpr ⟨hgr1, hgr2⟩, add_zero]
  rw [hct1]
  have ht2 : ((mi : ℚ) + (s : ℚ) / 60 - (mi : ℚ)) * 60 = (s : ℚ) := by ring
  rw [ht2]
  have hct2 : ctrunc ((s : ℚ)) = s := by
    unfold ctrunc
    rw [if_pos (by exact_mod_cast hs0)]
    exact Int.floor_intCast s
  rw [hct2]

/-- C2 witness: a concrete date and time of day that round-trips through
`settime`/`gettime`. -/
theorem settime_gettime_roundtrip_witness :
    DateTime.gettime (DateTime.settime 2019 11 8 12 34 56) =
      (2019, 11, 8, 12, 34, 56) :=
  settime_gettime_roundtrip 2019 11 8 12 34 56 (by norm_num) (by norm_num)
    (by decide) (by norm_num) (by norm_num) (by norm_num) (by norm_num)
    (by norm_num) (by norm_num)

/-- The cosine function is 1-Lipschitz. -/
theorem abs_cos_sub_cos_le (a b : ℝ) : |Real.cos a - Real.cos b| ≤ |a - b| := by
  rw [Real.cos_sub_cos, abs_mul, abs_mul]
  have h1 : |(-2 : ℝ)| = 2 := by norm_num
  have h2 : |Real.sin ((a + b) / 2)| ≤ 1 :=
    abs_le.mpr ⟨Real.neg_one_le_sin _, Real.sin_le_one _⟩
  have h3 : |Real.sin ((a - b) / 2)| ≤ |(a - b) / 2| := Real.abs_sin_le_abs
  have h4 : |(a - b) / 2| = |a - b| / 2 := by
    rw [abs_div]
    norm_num
  rw [h1]
  calc 2 * |Real.sin ((a + b) / 2)| * |Real.sin ((a - b) / 2)| ≤
      2 * 1 * (|a - b| / 2) := by
        apply mul_le_mul _ (h4 ▸ h3) (abs_nonneg _) (by norm_num)
        apply mul_le_mul_of_nonneg_left h2 (by norm_num)
  _ = |a - b| := by ring

/-- Mean-value bound: the chord of `sin` over a step `t` differs from the
tangent prediction `t * cos x` by at most `t ^ 2`. -/
theorem sin_slope_close (x t : ℝ) :
    |Real.sin x - Real.sin (x - t) - t * Real.cos x| ≤ t ^ 2 := by
  rcases lt_trichotomy t 0 with ht | rfl | ht
  · obtain ⟨c, hc, hceq⟩ := exists_hasDerivAt_eq_slope Real.sin Real.cos
      (by linarith : x < x - t) Real.continuous_sin.continuousOn
      (fun z _ => Real.hasDerivAt_sin z)
    rw [show x - t - x = -t from by ring] at hceq
    rw [eq_div_iff (by intro hcon; apply absurd hcon; simpa using ht.ne :
      (-t : ℝ) ≠ 0)] at hceq
    have hslope : Real.sin x - Real.sin (x - t) = t * Real.cos c := by
      linear_combination hceq
    rw [hslope, show t * Real.cos c - t * Real.cos x =
      t * (Real.cos c - Real.cos x) from by ring, abs_mul]
    have hcx : |Real.cos c - Real.cos x| ≤ |c - x| := abs_cos_sub_cos_le c x
    have hcb : |c - x| ≤ |t| := by
      obtain ⟨hc1, hc2⟩ := hc
      have e1 : |c - x| = c - x := abs_of_pos (by linarith)
      have e2 : |t| = -t := abs_of_neg ht
      linarith
    calc |t| * |Real.cos c - Real.cos x| ≤ |t| * |t| :=
          mul_le_mul_of_nonneg_left (le_trans hcx hcb) (abs_nonneg t)
    _ = t ^ 2 := by rw [abs_mul_abs_self]; ring
  · simp
  · obtain ⟨c, hc, hceq⟩ := exists_hasDerivAt_eq_slope Real.sin Real.cos
      (by linarith : x - t < x) Real.continuous_sin.continuousOn
      (fun z _ => Real.hasDerivAt_sin z)
    rw [show x - (x - t) = t from by ring] at hceq
    rw [eq_div_iff (ne_of_gt ht)] at hceq
    have hslope : Real.sin x - Real.sin (x - t) = t * Real.cos c := by
      linear_combination -hceq
    rw [hslope, show t * Real.cos c - t * Real.cos x =
      t * (Real.cos c - Real.cos x) from by ring, abs_mul]
    have hcx : |Real.cos c - Real.cos x| ≤ |c - x| := abs_cos_sub_cos_le c x
    have hcb : |c - x| ≤ |t| := by
      obtain ⟨hc1, hc2⟩ := hc
      have e1 : |c - x| = -(c - x) := abs_of_neg (by linarith)
      have e2 : |t| = t := abs_of_pos ht
      linarith
    calc |t| * |Real.cos c - Real.cos x| ≤ |t| * |t| :=
          mul_le_mul_of_nonneg_left (le_trans hcx hcb) (abs_nonneg t)
    _ = t ^ 2 := by rw [abs_mul_abs_self]; ring

/-- C1: whenever the Newton-Raphson loop of `Satellite::predict` exits —
that is, the correction `D` just applied satisfies `|D| < 1e-5` — the
eccentric anomaly it leaves behind satisfies the Kepler residual bound
`|EA - EC*sin(EA) - M| < 1e-5`, for any eccentricity in `[0, 0.9]` and
any mean anomaly. -/
theorem kepler_exit_residual (EC M EA : ℝ) (h0 : 0 ≤ EC) (h1 : EC ≤ 0.9)
    (hD : |keplerD EC M EA| < 1e-5) :
    |keplerResidual EC M (keplerNext EC M EA)| < 1e-5 := by
  have hcos := Real.cos_le_one EA
  have hDNOM : (0.1 : ℝ) ≤ keplerDNOM EC EA := by
    rw [keplerDNOM]
    nlinarith
  have hDnz : keplerDNOM EC EA ≠ 0 := by
    intro hcon
    rw [hcon] at hDNOM
    norm_num at hDNOM
  have hfE : EA - EC * Real.sin EA - M = keplerD EC M EA * keplerDNOM EC EA := by
    rw [keplerD]
    field_simp
  have key : keplerResidual EC M (keplerNext EC M EA) =
      EC * (Real.sin EA - Real.sin (EA - keplerD EC M EA) -
        keplerD EC M EA * Real.cos EA) := by
    rw [keplerNext, keplerResidual]
    rw [keplerDNOM] at hfE
    linear_combination hfE
  rw [key, abs_mul, abs_of_nonneg h0]
  have hs := sin_slope_close EA (keplerD EC M EA)
  have hD2 : (keplerD EC M EA) ^ 2 < (1e-5 : ℝ) ^ 2 := by
    nlinarith [sq_abs (keplerD EC M EA), abs_nonneg (keplerD EC M EA)]
  have habs := abs_nonneg (Real.sin EA - Real.sin (EA - keplerD EC M EA) -
    keplerD EC M EA * Real.cos EA)
  nlinarith

/-- C1 witness: at `EC = 0`, `M = 0` the loop state `EA = 0` has
correction `0`, so the exit applies and the residual bound holds there. -/
theorem kepler_exit_residual_witness :
    |keplerResidual 0 0 (keplerNext 0 0 0)| < 1e-5 :=
  kepler_exit_residual 0 0 0 le_rfl (by norm_num)
    (by simp [keplerD, keplerDNOM]; norm_num)

/-- The sine function is 1-Lipschitz. -/
theorem abs_sin_sub_sin_le (a b : ℝ) : |Real.sin a - Real.sin b| ≤ |a - b| := by
  rw [Real.sin_sub_sin, abs_mul, abs_mul]
  have h1 : |(2 : ℝ)| = 2 := by norm_num
  have h2 : |Real.cos ((a + b) / 2)| ≤ 1 :=
    abs_le.mpr ⟨Real.neg_one_le_cos _, Real.cos_le_one _⟩
  have h3 : |Real.sin ((a - b) / 2)| ≤ |(a - b) / 2| := Real.abs_sin_le_abs
  have h4 : |(a - b) / 2| = |a - b| / 2 := by
    rw [abs_div]
    norm_num
  rw [h1]
  calc 2 * |Real.sin ((a - b) / 2)| * |Real.cos ((a + b) / 2)| ≤
      2 * (|a - b| / 2) * 1 := by
        apply mul_le_mul _ h2 (abs_nonneg _) (by positivity)
        apply mul_le_mul_of_nonneg_left (h4 ▸ h3) (by norm_num)
  _ = |a - b| := by ring

/-- For eccentricities below 1 the Kepler residual is monotone in the
eccentric anomaly. -/
theorem keplerResidual_mono (EC M : ℝ) (h0 : 0 ≤ EC) (h1 : EC ≤ 0.9)
    {x y : ℝ} (hxy : x ≤ y) :
    keplerResidual EC M x ≤ keplerResidual EC M y := by
  rw [keplerResidual, keplerResidual]
  have hs := abs_sin_sub_sin_le y x
  have habs : |y - x| = y - x := abs_of_nonneg (by linarith)
  rw [habs] at hs
  have hs1 := abs_le.mp hs
  nlinarith [hs1.1, hs1.2]

/-- The denominator of the Newton step is bounded below by `1 - EC`. -/
theorem keplerDNOM_ge (EC E : ℝ) (h0 : 0 ≤ EC) (h1 : EC ≤ 0.9) :
    (0.1 : ℝ) ≤ keplerDNOM EC E := by
  rw [keplerDNOM]
  nlinarith [Real.cos_le_one E]

/-- Concavity of `sin` on `[0, π]` in tangent-line form, proved by the
mean value theorem and the antitonicity of `cos` on `[0, π]`. -/
theorem sin_le_tangent (x y : ℝ) (hx : x ∈ Set.Icc 0 Real.pi)
    (hy : y ∈ Set.Icc 0 Real.pi) :
    Real.sin x ≤ Real.sin y + (x - y) * Real.cos y := by
  obtain ⟨hx0, hxp⟩ := hx
  obtain ⟨hy0, hyp⟩ := hy
  rcases lt_trichotomy x y with hlt | rfl | hgt
  · obtain ⟨c, hc, hceq⟩ := exists_hasDerivAt_eq_slope Real.sin Real.cos hlt
      Real.continuous_sin.continuousOn (fun z _ => Real.hasDerivAt_sin z)
    rw [eq_div_iff (by linarith : (y - x : ℝ) ≠ 0)] at hceq
    obtain ⟨hc1, hc2⟩ := hc
    have hcy : Real.cos y ≤ Real.cos c :=
      Real.cos_le_cos_of_nonneg_of_le_pi (by linarith) hyp (by linarith)
    nlinarith [mul_le_mul_of_nonneg_left hcy (by linarith : (0 : ℝ) ≤ y - x)]
  · simp
  · obtain ⟨c, hc, hceq⟩ := exists_hasDerivAt_eq_slope Real.sin Real.cos hgt
      Real.continuous_sin.continuousOn (fun z _ => Real.hasDerivAt_sin z)
    rw [eq_div_iff (by linarith : (x - y : ℝ) ≠ 0)] at hceq
    obtain ⟨hc1, hc2⟩ := hc
    have hcy : Real.cos c ≤ Real.cos y :=
      Real.cos_le_cos_of_nonneg_of_le_pi hy0 (by linarith) (by linarith)
    nlinarith [mul_le_mul_of_nonneg_left hcy (by linarith : (0 : ℝ) ≤ x - y)]

/-- Tangent-line lower bound for the Kepler residual on `[0, π]`: the
residual is convex there, so it lies above each of its tangents. -/
theorem keplerResidual_tangent (EC M : ℝ) (h0 : 0 ≤ EC) (x y : ℝ)
    (hx : x ∈ Set.Icc 0 Real.pi) (hy : y ∈ Set.Icc 0 Real.pi) :
    keplerResidual EC M y + (x - y) * keplerDNOM EC y ≤ keplerResidual EC M x := by
  rw [keplerResidual, keplerResidual, keplerDNOM]
  nlinarith [sin_le_tangent x y hx hy]

/-- From any loop state in `[0, π]` the Newton step lands at or above the
root of the Kepler equation. -/
theorem keplerNext_ge_root (EC M y Estar : ℝ) (h0 : 0 ≤ EC) (h1 : EC ≤ 0.9)
    (hy : y ∈ Set.Icc 0 Real.pi) (hEs : Estar ∈ Set.Icc 0 Real.pi)
    (hroot : keplerResidual EC M Estar = 0) :
    Estar ≤ keplerNext EC M y := by
  have hdn := keplerDNOM_ge EC y h0 h1
  have htan := keplerResidual_tangent EC M h0 Estar y hEs hy
  rw [hroot] at htan
  have hne : keplerDNOM EC y ≠ 0 := by
    intro hcon
    rw [hcon] at hdn
    norm_num at hdn
  have hfy : keplerResidual EC M y = keplerD EC M y * keplerDNOM EC y := by
    rw [keplerResidual, keplerD]
    field_simp
  rw [hfy] at htan
  rw [keplerNext]
  nlinarith [htan, hdn]

/-- From a state at or above the root the Newton step does not increase. -/
theorem keplerNext_le_self (EC M y Estar : ℝ) (h0 : 0 ≤ EC) (h1 : EC ≤ 0.9)
    (hEs : Estar ≤ y) (hroot : keplerResidual EC M Estar = 0) :
    keplerNext EC M y ≤ y := by
  have hdn := keplerDNOM_ge EC y h0 h1
  have hfy : 0 ≤ keplerResidual EC M y := by
    rw [← hroot]
    exact keplerResidual_mono EC M h0 h1 hEs
  rw [keplerNext, keplerD]
  have : 0 ≤ (keplerResidual EC M y) / keplerDNOM EC y :=
    div_nonneg hfy (by linarith)
  rw [keplerResidual] at this
  linarith

/-- Cubic lower bound for `sin` on the nonnegative axis. -/
theorem sin_ge_sub_cube (x : ℝ) (hx : 0 ≤ x) : x - x ^ 3 / 6 ≤ Real.sin x := by
  have hd : ∀ z : ℝ, HasDerivAt (fun w => Real.sin w - (w - w ^ 3 / 6))
      (Real.cos z - (1 - z ^ 2 / 2)) z := by
    intro z
    have h1 : HasDerivAt (fun w : ℝ => w ^ 3) (3 * z ^ 2) z := by
      simpa using hasDerivAt_pow 3 z
    have h2 : HasDerivAt (fun w : ℝ => w - w ^ 3 / 6) (1 - 3 * z ^ 2 / 6) z :=
      (hasDerivAt_id z).sub (h1.div_const 6)
    have h3 := (Real.hasDerivAt_sin z).sub h2
    convert h3 using 1
    ring
  have hmono : Monotone (fun w => Real.sin w - (w - w ^ 3 / 6)) := by
    apply monotone_of_deriv_nonneg (fun z => (hd z).differentiableAt)
    intro z
    rw [(hd z).deriv]
    nlinarith [@Real.one_sub_sq_div_two_le_cos z]
  have hstep := hmono hx
  simp only [Real.sin_zero] at hstep
  nlinarith [hstep]

/-- Quartic upper bound for `cos` on the nonnegative axis. -/
theorem cos_le_quartic (x : ℝ) (hx : 0 ≤ x) :
    Real.cos x ≤ 1 - x ^ 2 / 2 + x ^ 4 / 24 := by
  have hd : ∀ z : ℝ, HasDerivAt (fun w => (1 - w ^ 2 / 2 + w ^ 4 / 24) - Real.cos w)
      ((z ^ 3 / 6 - z) + Real.sin z) z := by
    intro z
    have h1 : HasDerivAt (fun w : ℝ => w ^ 2) (2 * z) z := by
      simpa using hasDerivAt_pow 2 z
    have h2 : HasDerivAt (fun w : ℝ => w ^ 4) (4 * z ^ 3) z := by
      simpa using hasDerivAt_pow 4 z
    have h3 : HasDerivAt (fun w : ℝ => 1 - w ^ 2 / 2 + w ^ 4 / 24)
        (0 - 2 * z / 2 + 4 * z ^ 3 / 24) z :=
      ((hasDerivAt_const z (1 : ℝ)).sub (h1.div_const 2)).add (h2.div_const 24)
    have h4 := h3.sub (Real.hasDerivAt_cos z)
    convert h4 using 1
    ring
  have hmono : MonotoneOn (fun w => (1 - w ^ 2 / 2 + w ^ 4 / 24) - Real.cos w)
      (Set.Ici 0) := by
    apply monotoneOn_of_deriv_nonneg (convex_Ici 0)
    · exact (Continuous.continuousOn (by fun_prop))
    · intro z _
      exact (hd z).differentiableAt.differentiableWithinAt
    · intro z hz
      rw [interior_Ici] at hz
      rw [(hd z).deriv]
      have hz0 : (0 : ℝ) ≤ z := le_of_lt hz
      nlinarith [sin_ge_sub_cube z hz0]
  have hstep := hmono (Set.left_mem_Ici) hx hx
  simp only [Real.cos_zero] at hstep
  nlinarith [hstep]

/-- The worst-eccentricity form of the first-step bound: on `[0, π]` the
scaled sine is dominated by `(π - M)` times the Newton denominator at
eccentricity `0.9`. -/
theorem kepler_key_ineq (M : ℝ) (hM : M ∈ Set.Icc 0 Real.pi) :
    0.9 * Real.sin M ≤ (Real.pi - M) * (1 - 0.9 * Real.cos M) := by
  obtain ⟨hM0, hMp⟩ := hM
  have hsn : 0 ≤ Real.sin M := Real.sin_nonneg_of_nonneg_of_le_pi hM0 hMp
  rcases le_or_lt (Real.pi / 2) M with hge | hlt
  · have hsle : Real.sin M ≤ Real.pi - M := by
      have h1 := Real.sin_le (by linarith : (0 : ℝ) ≤ Real.pi - M)
      rwa [Real.sin_pi_sub] at h1
    have hcos : Real.cos M ≤ 0 :=
      Real.cos_nonpos_of_pi_div_two_le_of_le hge
        (by linarith [Real.pi_pos] : M ≤ Real.pi + Real.pi / 2)
    nlinarith [mul_nonneg (by linarith : (0 : ℝ) ≤ Real.pi - M)
      (by linarith : (0 : ℝ) ≤ -Real.cos M)]
  · have hMu : M ≤ 1.5707965 := by
      have := Real.pi_lt_3141593
      linarith
    have hsin : Real.sin M ≤ M := Real.sin_le hM0
    have hcosu : Real.cos M ≤ 1 - M ^ 2 / 2 + M ^ 4 / 24 := cos_le_quartic M hM0
    have hpigt : (3.141592 : ℝ) < Real.pi := Real.pi_gt_3141592
    have hM2 : M ^ 2 ≤ 2.4675 := by nlinarith
    have hM4 : M ^ 4 ≤ 2.4675 * M ^ 2 := by
      nlinarith [mul_le_mul_of_nonneg_left hM2 (sq_nonneg M)]
    have hpoly : (0 : ℝ) ≤ 0.1 + 0.45 * M ^ 2 - 0.0375 * M ^ 4 := by
      nlinarith [sq_nonneg M, hM4]
    have hcore : 0.9 * M ≤ (3.141592 - M) * (0.1 + 0.45 * M ^ 2 - 0.0375 * M ^ 4) := by
      nlinarith [sq_nonneg M, sq_nonneg (M - 1/2), sq_nonneg (M - 1),
        sq_nonneg (M ^ 2 - 1), mul_nonneg hM0 hM0, sq_nonneg (M ^ 2 - M),
        mul_nonneg (mul_nonneg hM0 hM0) hM0, sq_nonneg (M - 3/2),
        mul_nonneg hM0 (sub_nonneg.mpr hMu)]
    calc 0.9 * Real.sin M ≤ 0.9 * M := by linarith
    _ ≤ (3.141592 - M) * (0.1 + 0.45 * M ^ 2 - 0.0375 * M ^ 4) := hcore
    _ ≤ (Real.pi - M) * (0.1 + 0.45 * M ^ 2 - 0.0375 * M ^ 4) :=
        mul_le_mul_of_nonneg_right (by linarith) hpoly
    _ ≤ (Real.pi - M) * (1 - 0.9 * Real.cos M) :=
        mul_le_mul_of_nonneg_left (by linarith) (by linarith)

/-- The first Newton step from `EA = M` stays at or below `π` whenever
`M ∈ [0, π]` and the eccentricity is at most `0.9`. -/
theorem keplerNext_first_le_pi (EC M : ℝ) (h0 : 0 ≤ EC) (h1 : EC ≤ 0.9)
    (hM : M ∈ Set.Icc 0 Real.pi) : keplerNext EC M M ≤ Real.pi := by
  obtain ⟨hM0, hMp⟩ := hM
  have hdn := keplerDNOM_ge EC M h0 h1
  have hsn : 0 ≤ Real.sin M := Real.sin_nonneg_of_nonneg_of_le_pi hM0 hMp
  have hD : keplerD EC M M = -(EC * Real.sin M) / keplerDNOM EC M := by
    rw [keplerD]
    congr 1
    ring
  have hkey := kepler_key_ineq M ⟨hM0, hMp⟩
  have hstep : EC * Real.sin M ≤ (Real.pi - M) * keplerDNOM EC M := by
    rw [keplerDNOM]
    rcases le_or_lt ((Real.pi - M) * Real.cos M + Real.sin M) 0 with hcs | hcs
    · nlinarith [mul_nonneg h0 (by linarith : (0 : ℝ) ≤
        -((Real.pi - M) * Real.cos M + Real.sin M))]
    · nlinarith [mul_nonneg (by linarith : (0 : ℝ) ≤ 0.9 - EC) (le_of_lt hcs)]
  rw [keplerNext, hD, neg_div, sub_neg_eq_add]
  have hfin : EC * Real.sin M / keplerDNOM EC M ≤ Real.pi - M := by
    rw [div_le_iff₀ (by linarith : (0 : ℝ) < keplerDNOM EC M)]
    linarith [hstep]
  linarith

/-- The Kepler equation has a root in `[0, π]` for every `M ∈ [0, π]`. -/
theorem kepler_root_exists (EC M : ℝ) (h0 : 0 ≤ EC) (h1 : EC ≤ 0.9)
    (hM : M ∈ Set.Icc 0 Real.pi) :
    ∃ Estar ∈ Set.Icc 0 Real.pi, keplerResidual EC M Estar = 0 := by
  obtain ⟨hM0, hMp⟩ := hM
  have hcont : ContinuousOn (fun E => keplerResidual EC M E)
      (Set.Icc 0 Real.pi) := by
    apply Continuous.continuousOn
    unfold keplerResidual
    fun_prop
  have hsub := intermediate_value_Icc (le_trans hM0 hMp) hcont
  have hmem : (0 : ℝ) ∈ Set.Icc (keplerResidual EC M 0) (keplerResidual EC M Real.pi) := by
    constructor
    · rw [keplerResidual]
      simp only [Real.sin_zero]
      linarith
    · rw [keplerResidual, Real.sin_pi]
      linarith
  obtain ⟨Estar, hEs, hval⟩ := hsub hmem
  exact ⟨Estar, hEs, hval⟩

/-- Core termination of the Newton-Raphson loop for mean anomalies in
`[0, π]`: from the start `EA = M` the iterates enter `[Estar, π]` after
one step, decrease monotonically there, and hence the corrections pass
below the exit threshold. -/
theorem kepler_terminates_of_mem (EC M : ℝ) (h0 : 0 ≤ EC) (h1 : EC ≤ 0.9)
    (hM : M ∈ Set.Icc 0 Real.pi) :
    ∃ n, |keplerD EC M (keplerSeq EC M n)| < 1e-5 := by
  obtain ⟨Estar, hEs, hroot⟩ := kepler_root_exists EC M h0 h1 hM
  have hinv : ∀ n, keplerSeq EC M (n + 1) ∈ Set.Icc Estar Real.pi := by
    intro n
    induction n with
    | zero =>
        refine ⟨?_, ?_⟩
        · exact keplerNext_ge_root EC M M Estar h0 h1 hM hEs hroot
        · exact keplerNext_first_le_pi EC M h0 h1 hM
    | succ k ih =>
        refine ⟨?_, ?_⟩
        · exact keplerNext_ge_root EC M (keplerSeq EC M (k + 1)) Estar h0 h1
            ⟨le_trans hEs.1 ih.1, ih.2⟩ hEs hroot
        · calc keplerSeq EC M (k + 1 + 1) ≤ keplerSeq EC M (k + 1) :=
              keplerNext_le_self EC M (keplerSeq EC M (k + 1)) Estar h0 h1 ih.1 hroot
          _ ≤ Real.pi := ih.2
  have hanti : Antitone (fun n => keplerSeq EC M (n + 1)) := by
    apply antitone_nat_of_succ_le
    intro n
    exact keplerNext_le_self EC M (keplerSeq EC M (n + 1)) Estar h0 h1 (hinv n).1 hroot
  have hbdd : BddBelow (Set.range fun n => keplerSeq EC M (n + 1)) := by
    refine ⟨Estar, ?_⟩
    rintro x ⟨n, rfl⟩
    exact (hinv n).1
  have hlim := tendsto_atTop_ciInf hanti hbdd
  have hlim2 : Filter.Tendsto (fun n => keplerSeq EC M (n + 1 + 1)) Filter.atTop
      (nhds (⨅ n, keplerSeq EC M (n + 1))) := by
    have hcomp := hlim.comp (Filter.tendsto_add_atTop_nat 1)
    simpa [Function.comp] using hcomp
  have hdiff : Filter.Tendsto (fun n => keplerSeq EC M (n + 1) -
      keplerSeq EC M (n + 1 + 1)) Filter.atTop (nhds 0) := by
    have hsub := hlim.sub hlim2
    simpa using hsub
  rw [Metric.tendsto_atTop] at hdiff
  obtain ⟨N, hN⟩ := hdiff 1e-5 (by norm_num)
  refine ⟨N + 1, ?_⟩
  have hd := hN N le_rfl
  rw [Real.dist_eq, sub_zero] at hd
  have heq : keplerSeq EC M (N + 1) - keplerSeq EC M (N + 1 + 1) =
      keplerD EC M (keplerSeq EC M (N + 1)) := by
    show keplerSeq EC M (N + 1) - keplerNext EC M (keplerSeq EC M (N + 1)) = _
    rw [keplerNext]
    ring
  rwa [heq] at hd

/-- One Newton step commutes with translating the mean anomaly by whole
revolutions. -/
theorem keplerNext_translate (EC M E : ℝ) (k : ℤ) :
    keplerNext EC (M + (k : ℝ) * (2 * Real.pi)) (E + (k : ℝ) * (2 * Real.pi)) =
      keplerNext EC M E + (k : ℝ) * (2 * Real.pi) := by
  have hs := Real.sin_add_int_mul_two_pi E k
  have hc := Real.cos_add_int_mul_two_pi E k
  rw [keplerNext, keplerNext, keplerD, keplerD, keplerDNOM, keplerDNOM, hs, hc]
  have hnum : E + (k : ℝ) * (2 * Real.pi) - EC * Real.sin E -
      (M + (k : ℝ) * (2 * Real.pi)) = E - EC * Real.sin E - M := by ring
  rw [hnum]
  ring

/-- The Newton correction is invariant under translating the mean anomaly
by whole revolutions. -/
theorem keplerD_translate (EC M E : ℝ) (k : ℤ) :
    keplerD EC (M + (k : ℝ) * (2 * Real.pi)) (E + (k : ℝ) * (2 * Real.pi)) =
      keplerD EC M E := by
  have hs := Real.sin_add_int_mul_two_pi E k
  have hc := Real.cos_add_int_mul_two_pi E k
  rw [keplerD, keplerD, keplerDNOM, keplerDNOM, hs, hc]
  have hnum : E + (k : ℝ) * (2 * Real.pi) - EC * Real.sin E -
      (M + (k : ℝ) * (2 * Real.pi)) = E - EC * Real.sin E - M := by ring
  rw [hnum]

/-- All Newton iterates commute with translating the mean anomaly by
whole revolutions. -/
theorem keplerSeq_translate (EC M : ℝ) (k : ℤ) (n : ℕ) :
    keplerSeq EC (M + (k : ℝ) * (2 * Real.pi)) n =
      keplerSeq EC M n + (k : ℝ) * (2 * Real.pi) := by
  induction n with
  | zero => rfl
  | succ m ih =>
      show keplerNext EC (M + (k : ℝ) * (2 * Real.pi))
          (keplerSeq EC (M + (k : ℝ) * (2 * Real.pi)) m) = _
      rw [ih]
      exact keplerNext_translate EC M (keplerSeq EC M m) k

/-- One Newton step commutes with reflecting the mean anomaly about a
whole number of revolutions. -/
theorem keplerNext_reflect (EC M E : ℝ) (k : ℤ) :
    keplerNext EC ((k : ℝ) * (2 * Real.pi) - M) ((k : ℝ) * (2 * Real.pi) - E) =
      (k : ℝ) * (2 * Real.pi) - keplerNext EC M E := by
  have hs := Real.sin_int_mul_two_pi_sub E k
  have hc := Real.cos_int_mul_two_pi_sub E k
  rw [keplerNext, keplerNext, keplerD, keplerD, keplerDNOM, keplerDNOM, hs, hc]
  have hnum : (k : ℝ) * (2 * Real.pi) - E - EC * -Real.sin E -
      ((k : ℝ) * (2 * Real.pi) - M) = -(E - EC * Real.sin E - M) := by ring
  rw [hnum, neg_div]
  ring

/-- The Newton correction is negated by reflecting the mean anomaly about
a whole number of revolutions. -/
theorem keplerD_reflect (EC M E : ℝ) (k : ℤ) :
    keplerD EC ((k : ℝ) * (2 * Real.pi) - M) ((k : ℝ) * (2 * Real.pi) - E) =
      -keplerD EC M E := by
  have hs := Real.sin_int_mul_two_pi_sub E k
  have hc := Real.cos_int_mul_two_pi_sub E k
  rw [keplerD, keplerD, keplerDNOM, keplerDNOM, hs, hc]
  have hnum : (k : ℝ) * (2 * Real.pi) - E - EC * -Real.sin E -
      ((k : ℝ) * (2 * Real.pi) - M) = -(E - EC * Real.sin E - M) := by ring
  rw [hnum, neg_div]

/-- All Newton iterates commute with reflecting the mean anomaly about a
whole number of revolutions. -/
theorem keplerSeq_reflect (EC M : ℝ) (k : ℤ) (n : ℕ) :
    keplerSeq EC ((k : ℝ) * (2 * Real.pi) - M) n =
      (k : ℝ) * (2 * Real.pi) - keplerSeq EC M n := by
  induction n with
  | zero => rfl
  | succ m ih =>
      show keplerNext EC ((k : ℝ) * (2 * Real.pi) - M)
          (keplerSeq EC ((k : ℝ) * (2 * Real.pi) - M) m) = _
      rw [ih]
      exact keplerNext_reflect EC M (keplerSeq EC M m) k

/-- C3: for every eccentricity in `[0, 0.9]` and every real mean anomaly,
the Newton-Raphson loop of `Satellite::predict` terminates: some iterate
has correction magnitude `|D| < 1e-5`, which is exactly the loop's exit
condition. -/
theorem kepler_loop_terminates (EC M : ℝ) (h0 : 0 ≤ EC) (h1 : EC ≤ 0.9) :
    ∃ n, |keplerD EC M (keplerSeq EC M n)| < 1e-5 := by
  have hpi := Real.pi_pos
  have h2pi : (0 : ℝ) < 2 * Real.pi := by linarith
  set q : ℤ := ⌊M / (2 * Real.pi)⌋ with hq
  set M0 : ℝ := M - (q : ℝ) * (2 * Real.pi) with hM0def
  have hfr0 := Int.fract_nonneg (M / (2 * Real.pi))
  have hfr1 := Int.fract_lt_one (M / (2 * Real.pi))
  rw [Int.fract] at hfr0 hfr1
  rw [← hq] at hfr0 hfr1
  have hM0eq : M0 = (M / (2 * Real.pi) - (q : ℝ)) * (2 * Real.pi) := by
    rw [hM0def, sub_mul, div_mul_cancel₀ M (ne_of_gt h2pi)]
  have hM00 : 0 ≤ M0 := by
    rw [hM0eq]
    exact mul_nonneg hfr0 h2pi.le
  have hM02 : M0 < 2 * Real.pi := by
    rw [hM0eq]
    nlinarith
  rcases le_or_lt M0 Real.pi with hc1 | hc2
  · obtain ⟨n, hn⟩ := kepler_terminates_of_mem EC M0 h0 h1 ⟨hM00, hc1⟩
    refine ⟨n, ?_⟩
    have hMeq : M = M0 + (q : ℝ) * (2 * Real.pi) := by
      rw [hM0def]
      ring
    rw [hMeq, keplerSeq_translate, keplerD_translate]
    exact hn
  · set M1 : ℝ := ((q + 1 : ℤ) : ℝ) * (2 * Real.pi) - M with hM1def
    have hM1eq : M1 = 2 * Real.pi - M0 := by
      rw [hM1def, hM0def]
      push_cast
      ring
    obtain ⟨n, hn⟩ := kepler_terminates_of_mem EC M1 h0 h1
      ⟨by rw [hM1eq]; linarith, by rw [hM1eq]; linarith⟩
    refine ⟨n, ?_⟩
    have hMeq : M = ((q + 1 : ℤ) : ℝ) * (2 * Real.pi) - M1 := by
      rw [hM1def]
      ring
    rw [hMeq, keplerSeq_reflect, keplerD_reflect, abs_neg]
    exact hn

/-- C3 witness: a concrete pair of eccentricity and mean anomaly for
which termination holds. -/
theorem kepler_loop_terminates_witness :
    ∃ n, |keplerD 0.5 2 (keplerSeq 0.5 2 n)| < 1e-5 :=
  kepler_loop_terminates 0.5 2 (by norm_num) (by norm_num)

/-- C8 witness: the all-blank TLE lines instantiate the amended
statement. -/
theorem tle_unparsable_field_parses_as_zero_witness :
    getdouble (List.replicate 69 ' ') 18 20 = 0 ∧
    getlong (List.replicate 69 ' ') 18 20 = 0 ∧
    (Satellite.tle (List.replicate 69 ' ') (List.replicate 69 ' ')).YE = 2000 :=
  tle_unparsable_field_parses_as_zero (List.replicate 69 ' ')
    (List.replicate 69 ' ') (List.replicate 69 ' ') 18 20
    (by decide) (by decide)

end Plan13
